import Mathlib

/-!
Shallow embedding of the dubuddy auto-CRUD backend core:
the permission evaluator (`src/backend/src/utils/rbac.ts`), the generic
CRUD record handler (`src/backend/src/routes/crudRoutes.ts`), the schema
materializer (`createTableForModel`) and the dynamic route registry
(`registerModelRoutes` / `isRouteRegistered` / `getRegisteredRoutes`).
JavaScript objects are embedded as association lists of string keys and
`JsValue`s; JS truthiness of optional strings (empty string is falsy) is
made explicit where the source relies on it.
-/

namespace AutoCrud

/-- Field types of a model declaration (`src/backend/src/types/model.ts`). -/
inductive FieldType
  | string
  | number
  | boolean
  | date
  | json
deriving DecidableEq, Repr

/-- A JavaScript runtime value as far as the core compares and stores them. -/
inductive JsValue
  | str (s : String)
  | num (n : Int)
  | boolean (b : Bool)
  | null
deriving DecidableEq, Repr

/-- A `default` literal attached to a field; the materializer branches on the
JS `typeof` of the value: string, boolean, number, or anything else
(which it renders through `JSON.stringify`, carried here as the already
stringified text). -/
inductive FieldDefault
  | str (s : String)
  | boolean (b : Bool)
  | num (n : Int)
  | jsonText (s : String)
deriving DecidableEq, Repr

/-- One permission token of a role's set in `ModelRBAC`. -/
inductive PermToken
  | all
  | create
  | read
  | update
  | delete
deriving DecidableEq, Repr

/-- The four checkable operations (`Permission` in `utils/rbac.ts`). -/
inductive Permission
  | create
  | read
  | update
  | delete
deriving DecidableEq, Repr

/-- The token a bare operation occupies inside a role's permission list. -/
def Permission.toToken : Permission → PermToken
  | .create => .create
  | .read => .read
  | .update => .update
  | .delete => .delete

/-- `ModelField` from `src/backend/src/types/model.ts`. -/
structure ModelField where
  name : String
  type : FieldType
  required : Bool := false
  default : Option FieldDefault := none
  unique : Bool := false
deriving DecidableEq, Repr

/-- `ModelDefinition` from `src/backend/src/types/model.ts`; `rbac` is the
role-to-permission-list object, embedded as an association list. -/
structure ModelDefinition where
  name : String
  tableName : Option String := none
  fields : List ModelField := []
  ownerField : Option String := none
  rbac : List (String × List PermToken) := []
deriving DecidableEq, Repr

/-- The authenticated actor attached to a request by the auth middleware. -/
structure AuthUser where
  userId : String
  role : String
deriving DecidableEq, Repr

/-- A stored record / request body: a JS object as an association list. -/
abbrev RecordObj := List (String × JsValue)

/-- JS property read `r[k]`: the value at the first occurrence of key `k`,
if present. -/
def recordGet : RecordObj → String → Option JsValue
  | [], _ => none
  | p :: r, k => if p.1 == k then some p.2 else recordGet r k

/-- `model.rbac[role] || []`: object lookup defaulting to the empty list
when the role has no entry. -/
def rbacLookup (rbac : List (String × List PermToken)) (role : String) :
    List PermToken :=
  match rbac.find? (fun p => p.1 == role) with
  | some p => p.2
  | none => []

/-- JS truthiness of `model.ownerField`: `undefined` and the empty string
are falsy, any other string is truthy. -/
def ownerFieldOpt (m : ModelDefinition) : Option String :=
  match m.ownerField with
  | some f => if f.isEmpty then none else some f
  | none => none

/-- `checkPermission` from `src/backend/src/utils/rbac.ts` (lines 7-30):
deny when unauthenticated; allow unconditionally on the `all` token;
otherwise, when the bare operation is granted, apply the ownership rule
for update/delete on models with an owner field (allow on the record-less
pre-check, compare `record[ownerField] === userId` otherwise). -/
def checkPermission (user : Option AuthUser) (model : ModelDefinition)
    (permission : Permission) (record : Option RecordObj) : Bool :=
  match user with
  | none => false
  | some u =>
    let permissions := rbacLookup model.rbac u.role
    if permissions.contains PermToken.all then
      true
    else if permissions.contains permission.toToken then
      match ownerFieldOpt model with
      | some f =>
        if permission == Permission.update || permission == Permission.delete then
          match record with
          | none => true
          | some r => recordGet r f == some (JsValue.str u.userId)
        else true
      | none => true
    else false

/-- JS assignment `r[k] = v`: overwrite the value when the key exists,
append the property otherwise. -/
def recordSet (r : RecordObj) (k : String) (v : JsValue) : RecordObj :=
  if r.any (fun p => p.1 == k) then
    r.map (fun p => if p.1 == k then (p.1, v) else p)
  else
    r ++ [(k, v)]

/-- JS `delete r[k]`: drop the property named `k`. -/
def recordDelete (r : RecordObj) (k : String) : RecordObj :=
  r.filter (fun p => p.1 != k)

/-- First-occurrence deduplication of a key list, as `Object.keys` yields
each key of an object once, in insertion order. -/
def dedupKeys : List String → List String
  | [] => []
  | k :: ks => k :: (dedupKeys ks).filter (fun x => x != k)

/-- `Object.keys(r)`. -/
def jsKeys (r : RecordObj) : List String :=
  dedupKeys (r.map (fun p => p.1))

/-- The field/value pairs the POST handler binds into its INSERT statement
(`routes/crudRoutes.ts` lines 76-93): set the owner field to the actor's
id when configured, then keep every key except `id`, `createdAt`,
`updatedAt`, pairing each with its value in `data`. -/
def createInsertPairs (model : ModelDefinition) (u : AuthUser)
    (body : RecordObj) : RecordObj :=
  let data : RecordObj :=
    match ownerFieldOpt model with
    | some f => recordSet body f (JsValue.str u.userId)
    | none => body
  ((jsKeys data).filter
      (fun k => k != "id" && k != "createdAt" && k != "updatedAt")).map
    (fun k => (k, (recordGet data k).getD JsValue.null))

/-- The field/value pairs the PUT handler binds into its SET clause
(`routes/crudRoutes.ts` lines 125-131): delete `id` and `createdAt` from
the body, then keep every key except `updatedAt`, pairing each with its
value in `data`. -/
def updateSetPairs (body : RecordObj) : RecordObj :=
  let data : RecordObj := recordDelete (recordDelete body "id") "createdAt"
  ((jsKeys data).filter (fun k => k != "updatedAt")).map
    (fun k => (k, (recordGet data k).getD JsValue.null))

/-- Scenario model: role `Manager` holds `["create","read","update"]` on a
model with `ownerField = "ownerId"`. -/
def managerModel : ModelDefinition :=
  { name := "Task"
    ownerField := some "ownerId"
    rbac := [("Manager", [PermToken.create, PermToken.read, PermToken.update])] }

/-- Scenario model: role `Admin` holds `["all"]`, `ownerField = "ownerId"`. -/
def adminModel : ModelDefinition :=
  { name := "Task"
    ownerField := some "ownerId"
    rbac := [("Admin", [PermToken.all])] }

/-- Model whose policy grants role `Viewer` the empty permission list and
has no entry at all for other roles. -/
def emptyPolicyModel : ModelDefinition :=
  { name := "Task"
    ownerField := some "ownerId"
    rbac := [("Viewer", [])] }

/-- Outcome status of the GET `/:id` handler (`routes/crudRoutes.ts` lines
35-61), for an authenticated actor: model missing ⇒ 404; then the `read`
permission is checked with no record (403 on deny); only then is the
record looked up (404 when absent, 200 otherwise). -/
def getByIdStatus (u : AuthUser) (model : Option ModelDefinition)
    (record : Option RecordObj) : Nat :=
  match model with
  | none => 404
  | some m =>
    if checkPermission (some u) m Permission.read none then
      match record with
      | none => 404
      | some _ => 200
    else 403

/-- Outcome status of the PUT `/:id` handler (`routes/crudRoutes.ts` lines
103-147), for an authenticated actor: model missing ⇒ 404; the existing
record is fetched first (404 when absent); only then is the `update`
permission checked against it (403 on deny, 200 otherwise). -/
def updateStatus (u : AuthUser) (model : Option ModelDefinition)
    (existing : Option RecordObj) : Nat :=
  match model with
  | none => 404
  | some m =>
    match existing with
    | none => 404
    | some ex =>
      if checkPermission (some u) m Permission.update (some ex) then 200
      else 403

/-- Outcome status of the DELETE `/:id` handler (`routes/crudRoutes.ts`
lines 150-181), for an authenticated actor: model missing ⇒ 404; existing
record fetched first (404 when absent); then the `delete` permission is
checked against it (403 on deny, 200 otherwise). -/
def deleteStatus (u : AuthUser) (model : Option ModelDefinition)
    (existing : Option RecordObj) : Nat :=
  match model with
  | none => 404
  | some m =>
    match existing with
    | none => 404
    | some ex =>
      if checkPermission (some u) m Permission.delete (some ex) then 200
      else 403

/-- JS `String.prototype.toLowerCase()` on the names this system uses:
each character lowercased. -/
def jsToLower (s : String) : String :=
  ⟨s.data.map Char.toLower⟩

/-- Column type mapping of `createTableForModel`
(`src/backend/src/types/auth.ts`, the service part, lines 106-122). -/
def sqlTypeFor : FieldType → String
  | .string => "TEXT"
  | .number => "NUMERIC"
  | .boolean => "BOOLEAN"
  | .date => "TIMESTAMP"
  | .json => "JSONB"

/-- `field.default.replace(/'/g, "''")` on the character list: every single
quote is doubled. -/
def escapeQuotesChars : List Char → List Char
  | [] => []
  | c :: cs =>
    if c = '\'' then '\'' :: '\'' :: escapeQuotesChars cs
    else c :: escapeQuotesChars cs

/-- String form of the quote-doubling replacement. -/
def escapeSqlQuotes (s : String) : String :=
  ⟨escapeQuotesChars s.data⟩

/-- The `DEFAULT` fragment of a column definition, by the JS `typeof`
branches of `createTableForModel` (lines 128-139): strings and
non-primitive values (already `JSON.stringify`-rendered) are quote-escaped
and single-quoted; booleans and numbers are interpolated bare. -/
def defaultClause : FieldDefault → String
  | .str s => " DEFAULT '" ++ escapeSqlQuotes s ++ "'"
  | .boolean b => " DEFAULT " ++ (if b then "true" else "false")
  | .num n => " DEFAULT " ++ toString n
  | .jsonText s => " DEFAULT '" ++ escapeSqlQuotes s ++ "'"

/-- One generated column definition (lines 103-146): quoted name, type,
optional NOT NULL, optional DEFAULT literal, optional UNIQUE. -/
def columnDef (fld : ModelField) : String :=
  "\"" ++ fld.name ++ "\" " ++ sqlTypeFor fld.type
    ++ (if fld.required then " NOT NULL" else "")
    ++ (match fld.default with
        | some d => defaultClause d
        | none => "")
    ++ (if fld.unique then " UNIQUE" else "")

/-- `model.tableName || model.name.toLowerCase() + 's'`: the physical name
override when present and non-empty (JS truthiness), else the lowercased
model name with an `s` appended. -/
def tableNameFor (m : ModelDefinition) : String :=
  match m.tableName with
  | some t => if t.isEmpty then jsToLower m.name ++ "s" else t
  | none => jsToLower m.name ++ "s"

/-- The full CREATE TABLE statement assembled by `createTableForModel`
(lines 92-152): id primary key, optional owner column, one column per
field, and the two server-maintained timestamps. -/
def createTableSQL (m : ModelDefinition) : String :=
  "CREATE TABLE IF NOT EXISTS \"" ++ tableNameFor m ++ "\" ("
    ++ "\"id\" TEXT PRIMARY KEY DEFAULT gen_random_uuid()::text,"
    ++ (match ownerFieldOpt m with
        | some f => "\"" ++ f ++ "\" TEXT,"
        | none => "")
    ++ String.join (m.fields.map (fun fld => columnDef fld ++ ","))
    ++ "\"createdAt\" TIMESTAMP DEFAULT NOW(),"
    ++ "\"updatedAt\" TIMESTAMP DEFAULT NOW()"
    ++ ")"

/-- A left-to-right scan of a SQL single-quoted literal body, starting just
after the opening quote: `''` contributes one quote character to the
decoded text; a lone `'` closes the literal, returning the decoded text
and the unconsumed remainder; an unterminated literal yields `none`. -/
def sqlLiteralScan : List Char → List Char → Option (List Char × List Char)
  | _, [] => none
  | acc, c :: rest =>
    if c = '\'' then
      match rest with
      | '\'' :: rest2 => sqlLiteralScan (acc ++ ['\'']) rest2
      | _ => some (acc, rest)
    else sqlLiteralScan (acc ++ [c]) rest

/-- The dynamic route registry (`utils/rbac.ts`, registry part, lines
95-124): the `registeredRoutes` set (as an insertion-ordered duplicate-free
list) and the sequence of `app.use(path, handler)` mounts, each mount
carrying its path and the model name the handler is bound to. -/
structure RegistryState where
  registered : List String
  mounts : List (String × String)
deriving DecidableEq, Repr

/-- Registry state at process start: nothing registered, nothing mounted. -/
def initialRegistryState : RegistryState :=
  { registered := [], mounts := [] }

/-- `registerModelRoutes` (lines 102-116): lowercase the name; if already in
the set, return unchanged; otherwise mount a handler at
`/api/` + lowercased name and add the lowercased name to the set. -/
def registerModelRoutes (s : RegistryState) (modelName : String) :
    RegistryState :=
  if s.registered.contains (jsToLower modelName) then s
  else
    { registered := s.registered ++ [jsToLower modelName]
      mounts := s.mounts ++ [("/api/" ++ jsToLower modelName, modelName)] }

/-- `isRouteRegistered` (lines 118-120). -/
def isRouteRegistered (s : RegistryState) (modelName : String) : Bool :=
  s.registered.contains (jsToLower modelName)

/-- `getRegisteredRoutes` (lines 122-124). -/
def getRegisteredRoutes (s : RegistryState) : List String :=
  s.registered

/-- Invariant of reachable registry states: the registered set is
duplicate-free, and for every name `n` the number of mounts at path
`/api/` + `n` is one when `n` is registered and zero otherwise. -/
def RegistryInv (s : RegistryState) : Prop :=
  s.registered.Nodup ∧
  ∀ n : String,
    (s.mounts.filter (fun p => p.1 == "/api/" ++ n)).length =
      (if s.registered.contains n then 1 else 0)

/-- The `"Invoice"` declaration of Scenario D: no physical-name override. -/
def invoiceModel : ModelDefinition :=
  { name := "Invoice"
    rbac := [("Admin", [PermToken.all])] }

/-- A field whose string default carries a single quote, for exercising the
default-literal escaping. -/
def quoteField : ModelField :=
  { name := "note"
    type := FieldType.string
    default := some (FieldDefault.str "O'Brien") }

/-- C1: two-phase ownership check. When the role's permission set holds the
requested operation but not `all`, the operation is update or delete, and
the model has an owner field, `checkPermission` allows the record-less
pre-check, and with a record allows exactly when `record[ownerField]`
is the acting user's identifier. -/
theorem checkPermission_owner_two_phase
    (u : AuthUser) (model : ModelDefinition) (op : Permission) (f : String)
    (hop : op = Permission.update ∨ op = Permission.delete)
    (howner : ownerFieldOpt model = some f)
    (hall : (rbacLookup model.rbac u.role).contains PermToken.all = false)
    (hperm : (rbacLookup model.rbac u.role).contains op.toToken = true) :
    checkPermission (some u) model op none = true ∧
    ∀ r : RecordObj,
      (checkPermission (some u) model op (some r) = true ↔
        recordGet r f = some (JsValue.str u.userId)) := by
  constructor
  · simp only [checkPermission, hall, hperm, howner]
    rcases hop with h | h <;> simp [h]
  · intro r
    simp only [checkPermission, hall, hperm, howner]
    rcases hop with h | h <;> simp [h]

/-- C1 witness: Scenario C. Role `Manager` with `["create","read","update"]`,
`ownerField = "ownerId"`, record `{ownerId: "u2"}`: actor `u1` is denied the
update, actor `u2` is allowed, and both pre-checks are allowed. -/
theorem checkPermission_owner_two_phase_witness :
    checkPermission (some ⟨"u1", "Manager"⟩) managerModel Permission.update
        (some [("ownerId", JsValue.str "u2")]) = false ∧
    checkPermission (some ⟨"u2", "Manager"⟩) managerModel Permission.update
        (some [("ownerId", JsValue.str "u2")]) = true ∧
    checkPermission (some ⟨"u1", "Manager"⟩) managerModel Permission.update
        none = true := by
  refine ⟨?_, ?_, ?_⟩
  · have h := checkPermission_owner_two_phase ⟨"u1", "Manager"⟩ managerModel
      Permission.update "ownerId" (Or.inl rfl) (by decide) (by decide) (by decide)
    have h2 := (h.2 [("ownerId", JsValue.str "u2")]).not
    simp only [Bool.not_eq_true] at h2
    exact h2.mpr (by decide)
  · exact ((checkPermission_owner_two_phase ⟨"u2", "Manager"⟩ managerModel
      Permission.update "ownerId" (Or.inl rfl) (by decide) (by decide)
      (by decide)).2 [("ownerId", JsValue.str "u2")]).mpr (by decide)
  · exact (checkPermission_owner_two_phase ⟨"u1", "Manager"⟩ managerModel
      Permission.update "ownerId" (Or.inl rfl) (by decide) (by decide)
      (by decide)).1

/-- C2: the `all` token is an unconditional override: any authenticated
actor whose role holds `all` is allowed every operation on every record,
bypassing the ownership check. -/
theorem checkPermission_all_override
    (u : AuthUser) (model : ModelDefinition) (op : Permission)
    (record : Option RecordObj)
    (hall : (rbacLookup model.rbac u.role).contains PermToken.all = true) :
    checkPermission (some u) model op record = true := by
  simp only [checkPermission, hall, if_true]

/-- C2 witness: Scenario A. Role `Admin` with `["all"]` may delete a record
owned by someone else. -/
theorem checkPermission_all_override_witness :
    checkPermission (some ⟨"u1", "Admin"⟩) adminModel Permission.delete
      (some [("ownerId", JsValue.str "u2")]) = true :=
  checkPermission_all_override ⟨"u1", "Admin"⟩ adminModel Permission.delete
    (some [("ownerId", JsValue.str "u2")]) (by decide)

/-- C3: deny-by-default: when the policy has no entry for the actor's role,
or the entry is the empty list, `checkPermission` denies every operation on
every record. -/
theorem checkPermission_deny_by_default
    (u : AuthUser) (model : ModelDefinition) (op : Permission)
    (record : Option RecordObj)
    (h : model.rbac.find? (fun p => p.1 == u.role) = none ∨
         rbacLookup model.rbac u.role = []) :
    checkPermission (some u) model op record = false := by
  have hl : rbacLookup model.rbac u.role = [] := by
    rcases h with h | h
    · simp [rbacLookup, h]
    · exact h
  simp [checkPermission, hl]

/-- C3 witness: on a model whose policy maps `Viewer` to the empty list and
has no `Manager` entry, both a Viewer and a Manager are denied a read. -/
theorem checkPermission_deny_by_default_witness :
    checkPermission (some ⟨"u1", "Viewer"⟩) emptyPolicyModel Permission.read
        none = false ∧
    checkPermission (some ⟨"u1", "Manager"⟩) emptyPolicyModel Permission.read
        none = false :=
  ⟨checkPermission_deny_by_default ⟨"u1", "Viewer"⟩ emptyPolicyModel
      Permission.read none (Or.inr (by decide)),
   checkPermission_deny_by_default ⟨"u1", "Manager"⟩ emptyPolicyModel
      Permission.read none (Or.inl (by decide))⟩

lemma recordGet_map_keys (g : String → JsValue) (f : String)
    (ks : List String) :
    recordGet (ks.map fun k => (k, g k)) f =
      if f ∈ ks then some (g f) else none := by
  induction ks with
  | nil => simp [recordGet]
  | cons k ks ih =>
    by_cases h : k = f
    · subst h
      simp [recordGet]
    · simp [recordGet, h, ih, Ne.symm h]

lemma recordGet_mem_keys (r : RecordObj) (f : String) (v : JsValue)
    (h : recordGet r f = some v) : f ∈ r.map (fun p => p.1) := by
  induction r with
  | nil => simp [recordGet] at h
  | cons p r ih =>
    by_cases hk : p.1 = f
    · simp [hk]
    · simp only [recordGet] at h
      rw [if_neg (by simp [hk])] at h
      simp [ih h]

lemma mem_dedupKeys (x : String) (ks : List String) :
    x ∈ dedupKeys ks ↔ x ∈ ks := by
  induction ks with
  | nil => simp [dedupKeys]
  | cons k ks ih =>
    by_cases h : x = k
    · subst h
      simp [dedupKeys]
    · simp [dedupKeys, List.mem_filter, ih, h, bne_iff_ne]

lemma mem_jsKeys (r : RecordObj) (f : String) :
    f ∈ jsKeys r ↔ f ∈ r.map (fun p => p.1) := by
  simp [jsKeys, mem_dedupKeys]

lemma recordGet_map_overwrite (r : RecordObj) (k : String) (v : JsValue)
    (h : r.any (fun p => p.1 == k) = true) :
    recordGet (r.map fun p => if p.1 == k then (p.1, v) else p) k = some v := by
  induction r with
  | nil => simp at h
  | cons p r ih =>
    by_cases hk : p.1 = k
    · simp [recordGet, hk]
    · rw [List.any_cons] at h
      have h' : r.any (fun p => p.1 == k) = true := by
        rcases Bool.or_eq_true_iff.mp h with h1 | h1
        · exact absurd (by simpa using h1) hk
        · exact h1
      have hbeq : (p.1 == k) = false := by simp [hk]
      simp only [List.map_cons, recordGet, hbeq, Bool.false_eq_true, if_false]
      exact ih h'

lemma recordGet_append_right (r l : RecordObj) (k : String)
    (h : r.any (fun p => p.1 == k) = false) :
    recordGet (r ++ l) k = recordGet l k := by
  induction r with
  | nil => simp
  | cons p r ih =>
    rw [List.any_cons, Bool.or_eq_false_iff] at h
    rw [List.cons_append]
    simp only [recordGet]
    rw [if_neg (by simp [h.1]), ih h.2]

lemma recordSet_get_self (r : RecordObj) (k : String) (v : JsValue) :
    recordGet (recordSet r k v) k = some v := by
  unfold recordSet
  by_cases h : r.any (fun p => p.1 == k) = true
  · rw [if_pos h]
    exact recordGet_map_overwrite r k v h
  · have h' : r.any (fun p => p.1 == k) = false := by
      cases hb : r.any (fun p => p.1 == k)
      · rfl
      · exact absurd hb h
    rw [if_neg (by simp [h']), recordGet_append_right r _ k h']
    simp [recordGet]

lemma recordGet_recordDelete_ne (r : RecordObj) (k k' : String)
    (h : k' ≠ k) :
    recordGet (recordDelete r k) k' = recordGet r k' := by
  induction r with
  | nil => simp [recordDelete]
  | cons p r ih =>
    by_cases hp : p.1 = k
    · have hne : (p.1 == k') = false := by
        simp [hp, Ne.symm h]
      rw [recordDelete, List.filter_cons]
      rw [if_neg (by simp [hp])]
      rw [show (List.filter (fun p => p.1 != k) r : RecordObj) =
        recordDelete r k from rfl, ih]
      simp only [recordGet]
      rw [if_neg (by simp [hne])]
    · rw [recordDelete, List.filter_cons]
      rw [if_pos (by simp [hp])]
      simp only [recordGet]
      rw [show (List.filter (fun p => p.1 != k) r : RecordObj) =
        recordDelete r k from rfl, ih]

lemma mem_keys_recordDelete (r : RecordObj) (k x : String) :
    x ∈ (recordDelete r k).map (fun p => p.1) ↔
      (x ∈ r.map (fun p => p.1) ∧ x ≠ k) := by
  induction r with
  | nil => simp [recordDelete]
  | cons p r ih =>
    by_cases hp : p.1 = k
    · rw [recordDelete, List.filter_cons, if_neg (by simp [hp])]
      rw [show (List.filter (fun q => q.1 != k) r : RecordObj) =
        recordDelete r k from rfl, ih]
      simp only [List.map_cons, List.mem_cons, hp]
      tauto
    · rw [recordDelete, List.filter_cons, if_pos (by simp [hp])]
      simp only [List.map_cons, List.mem_cons]
      rw [show (List.filter (fun q => q.1 != k) r : RecordObj) =
        recordDelete r k from rfl, ih]
      constructor
      · rintro (rfl | ⟨hm, hne⟩)
        · exact ⟨Or.inl rfl, hp⟩
        · exact ⟨Or.inr hm, hne⟩
      · rintro ⟨rfl | hm, hne⟩
        · exact Or.inl rfl
        · exact Or.inr ⟨hm, hne⟩

lemma createInsertPairs_get_owner (model : ModelDefinition) (u : AuthUser)
    (body : RecordObj) (f : String)
    (howner : ownerFieldOpt model = some f)
    (hf1 : f ≠ "id") (hf2 : f ≠ "createdAt") (hf3 : f ≠ "updatedAt") :
    recordGet (createInsertPairs model u body) f =
      some (JsValue.str u.userId) := by
  unfold createInsertPairs
  rw [howner]
  simp only
  set data : RecordObj := recordSet body f (JsValue.str u.userId) with hdata
  rw [recordGet_map_keys]
  have hget : recordGet data f = some (JsValue.str u.userId) :=
    recordSet_get_self body f _
  have hmem : f ∈ (jsKeys data).filter
      (fun k => k != "id" && k != "createdAt" && k != "updatedAt") := by
    rw [List.mem_filter]
    refine ⟨(mem_jsKeys data f).mpr (recordGet_mem_keys data f _ hget), ?_⟩
    simp [bne_iff_ne, hf1, hf2, hf3]
  rw [if_pos hmem, hget]
  rfl

lemma updateSetPairs_get (body : RecordObj) (f : String) (v : JsValue)
    (hf1 : f ≠ "id") (hf2 : f ≠ "createdAt") (hf3 : f ≠ "updatedAt")
    (hv : recordGet body f = some v) :
    recordGet (updateSetPairs body) f = some v := by
  unfold updateSetPairs
  simp only
  set data : RecordObj := recordDelete (recordDelete body "id") "createdAt"
    with hdata
  have hget : recordGet data f = some v := by
    rw [hdata, recordGet_recordDelete_ne _ _ _ hf2,
      recordGet_recordDelete_ne _ _ _ hf1, hv]
  rw [recordGet_map_keys]
  have hmem : f ∈ (jsKeys data).filter (fun k => k != "updatedAt") := by
    rw [List.mem_filter]
    refine ⟨(mem_jsKeys data f).mpr (recordGet_mem_keys data f _ hget), ?_⟩
    simp [bne_iff_ne, hf3]
  rw [if_pos hmem, hget]
  rfl

lemma updateSetPairs_keys (body : RecordObj) (x : String) :
    x ∈ (updateSetPairs body).map (fun p => p.1) ↔
      (x ∈ body.map (fun p => p.1) ∧
        x ≠ "id" ∧ x ≠ "createdAt" ∧ x ≠ "updatedAt") := by
  unfold updateSetPairs
  simp only [List.map_map]
  have hcomp :
      ((fun p : String × JsValue => p.1) ∘
        (fun k => (k, (recordGet
          (recordDelete (recordDelete body "id") "createdAt") k).getD
            JsValue.null))) = fun k => k := by
    funext k
    rfl
  rw [hcomp, List.map_id']
  rw [List.mem_filter]
  rw [mem_jsKeys]
  rw [mem_keys_recordDelete, mem_keys_recordDelete]
  simp [bne_iff_ne]
  tauto

/-- C4: the create path strips client-supplied `id`, `createdAt` and
`updatedAt` and forces the owner column to the authenticated actor's
identifier: every bound insert pair has a non-reserved key, and the owner
field's bound value is the actor's id regardless of the client body. -/
theorem createInsertPairs_owner_forced
    (model : ModelDefinition) (u : AuthUser) (body : RecordObj) (f : String)
    (hperm : checkPermission (some u) model Permission.create none = true)
    (howner : ownerFieldOpt model = some f)
    (hf1 : f ≠ "id") (hf2 : f ≠ "createdAt") (hf3 : f ≠ "updatedAt") :
    (∀ p ∈ createInsertPairs model u body,
        p.1 ≠ "id" ∧ p.1 ≠ "createdAt" ∧ p.1 ≠ "updatedAt") ∧
    recordGet (createInsertPairs model u body) f =
      some (JsValue.str u.userId) := by
  constructor
  · intro p hp
    unfold createInsertPairs at hp
    rw [howner] at hp
    simp only at hp
    rw [List.mem_map] at hp
    obtain ⟨k, hk, rfl⟩ := hp
    rw [List.mem_filter] at hk
    have hres := hk.2
    simp only [Bool.and_eq_true, bne_iff_ne, ne_eq] at hres
    exact ⟨hres.1.1, hres.1.2, hres.2⟩
  · exact createInsertPairs_get_owner model u body f howner hf1 hf2 hf3

/-- C4 witness: a Manager creating a record on `managerModel`
(`ownerField = "ownerId"`) with a client body that supplies both an `id`
and a foreign `ownerId`: the bound owner value is the actor's id and the
reserved keys are gone. -/
theorem createInsertPairs_owner_forced_witness :
    recordGet (createInsertPairs managerModel ⟨"u1", "Manager"⟩
        [("ownerId", JsValue.str "attacker"), ("id", JsValue.str "x"),
          ("title", JsValue.str "t")]) "ownerId" =
      some (JsValue.str "u1") ∧
    ("ownerId", JsValue.str "attacker") ∉
      createInsertPairs managerModel ⟨"u1", "Manager"⟩
        [("ownerId", JsValue.str "attacker"), ("id", JsValue.str "x"),
          ("title", JsValue.str "t")] := by
  refine ⟨(createInsertPairs_owner_forced managerModel ⟨"u1", "Manager"⟩
    [("ownerId", JsValue.str "attacker"), ("id", JsValue.str "x"),
      ("title", JsValue.str "t")] "ownerId"
    (by decide) (by decide) (by decide) (by decide) (by decide)).2, ?_⟩
  decide

/-- C6 (implicit): the update path does not protect the owner field: a
client-supplied owner value survives into the bound SET pairs unchanged,
the SET-clause keys are exactly the body's keys minus `id`, `createdAt`
and `updatedAt`, while the create path on the same body forces the owner
value to the actor's id. -/
theorem updateSetPairs_owner_not_protected
    (model : ModelDefinition) (u : AuthUser) (body : RecordObj)
    (f : String) (v : JsValue)
    (howner : ownerFieldOpt model = some f)
    (hf1 : f ≠ "id") (hf2 : f ≠ "createdAt") (hf3 : f ≠ "updatedAt")
    (hv : recordGet body f = some v) :
    recordGet (updateSetPairs body) f = some v ∧
    (∀ x : String,
      x ∈ (updateSetPairs body).map (fun p => p.1) ↔
        (x ∈ body.map (fun p => p.1) ∧
          x ≠ "id" ∧ x ≠ "createdAt" ∧ x ≠ "updatedAt")) ∧
    recordGet (createInsertPairs model u body) f =
      some (JsValue.str u.userId) :=
  ⟨updateSetPairs_get body f v hf1 hf2 hf3 hv,
   fun x => updateSetPairs_keys body x,
   createInsertPairs_get_owner model u body f howner hf1 hf2 hf3⟩

/-- C6 witness: an update body reassigning `ownerId` to `"attacker"` keeps
that value in the bound SET pairs, while the create path on the same body
would have forced `"u1"`. -/
theorem updateSetPairs_owner_not_protected_witness :
    recordGet (updateSetPairs
        [("ownerId", JsValue.str "attacker"), ("id", JsValue.str "x")])
      "ownerId" = some (JsValue.str "attacker") ∧
    recordGet (createInsertPairs managerModel ⟨"u1", "Manager"⟩
        [("ownerId", JsValue.str "attacker"), ("id", JsValue.str "x")])
      "ownerId" = some (JsValue.str "u1") := by
  have h := updateSetPairs_owner_not_protected managerModel ⟨"u1", "Manager"⟩
    [("ownerId", JsValue.str "attacker"), ("id", JsValue.str "x")]
    "ownerId" (JsValue.str "attacker")
    (by decide) (by decide) (by decide) (by decide) (by decide)
  exact ⟨h.1, h.2.2⟩

/-- C5 counterexample: on the GET `/:id` path the permission check runs
before the record lookup, so a denied reader asking for a missing record
receives 403, not the 404 the claim requires for every record-scoped
operation. -/
theorem getById_missing_record_cex :
    getByIdStatus ⟨"u1", "Viewer"⟩ (some emptyPolicyModel) none = 403 ∧
    getByIdStatus ⟨"u1", "Viewer"⟩ (some emptyPolicyModel) none ≠ 404 := by
  decide

/-- C5 (amended): for update and delete, a missing record yields 404 even
when the evaluator would also deny, and 403 arises only when the record
exists; for get, the permission check precedes the record lookup, so a
missing record yields 404 exactly when read permission is granted and 403
otherwise. -/
theorem recordScoped_notFound_precedence
    (u : AuthUser) (m : ModelDefinition) :
    updateStatus u (some m) none = 404 ∧
    deleteStatus u (some m) none = 404 ∧
    (∀ r : Option RecordObj, updateStatus u (some m) r = 403 → r ≠ none) ∧
    (∀ r : Option RecordObj, deleteStatus u (some m) r = 403 → r ≠ none) ∧
    getByIdStatus u (some m) none =
      (if checkPermission (some u) m Permission.read none then 404
       else 403) := by
  refine ⟨rfl, rfl, ?_, ?_, rfl⟩
  · intro r h
    cases r with
    | none => simp [updateStatus] at h
    | some _ => simp
  · intro r h
    cases r with
    | none => simp [deleteStatus] at h
    | some _ => simp

/-- C5 amended-claim witness: a missing record on the update path of
`emptyPolicyModel` yields 404 for a denied Viewer, and a present record
that draws 403 is indeed present. -/
theorem recordScoped_notFound_precedence_witness :
    updateStatus ⟨"u1", "Viewer"⟩ (some emptyPolicyModel) none = 404 ∧
    (some [("ownerId", JsValue.str "u2")] : Option RecordObj) ≠ none := by
  have h := recordScoped_notFound_precedence ⟨"u1", "Viewer"⟩ emptyPolicyModel
  exact ⟨h.1, h.2.2.1 (some [("ownerId", JsValue.str "u2")]) (by decide)⟩

lemma sqlLiteralScan_escaped_quote (acc r : List Char) :
    sqlLiteralScan acc ('\'' :: '\'' :: r) =
      sqlLiteralScan (acc ++ ['\'']) r := by
  simp [sqlLiteralScan]

lemma sqlLiteralScan_close (acc r : List Char) (h : r.head? ≠ some '\'') :
    sqlLiteralScan acc ('\'' :: r) = some (acc, r) := by
  cases r with
  | nil => simp [sqlLiteralScan]
  | cons x xs =>
    have hx : x ≠ '\'' := fun hx => h (by simp [hx])
    simp [sqlLiteralScan, hx]

lemma sqlLiteralScan_cons_other (acc : List Char) (c : Char) (r : List Char)
    (h : c ≠ '\'') :
    sqlLiteralScan acc (c :: r) = sqlLiteralScan (acc ++ [c]) r := by
  cases r with
  | nil => simp [sqlLiteralScan, h]
  | cons x xs =>
    by_cases hx : x = '\''
    · subst hx
      simp [sqlLiteralScan, h]
    · simp [sqlLiteralScan, h, hx]

lemma sqlLiteralScan_escaped (s : List Char) :
    ∀ (acc rest : List Char), rest.head? ≠ some '\'' →
      sqlLiteralScan acc (escapeQuotesChars s ++ '\'' :: rest) =
        some (acc ++ s, rest) := by
  induction s with
  | nil =>
    intro acc rest h
    rw [escapeQuotesChars, List.nil_append, sqlLiteralScan_close acc rest h]
    simp
  | cons c cs ih =>
    intro acc rest h
    by_cases hc : c = '\''
    · subst hc
      rw [escapeQuotesChars, if_pos rfl, List.cons_append, List.cons_append,
        sqlLiteralScan_escaped_quote, ih (acc ++ ['\'']) rest h]
      simp
    · rw [escapeQuotesChars, if_neg hc, List.cons_append,
        sqlLiteralScan_cons_other acc c _ hc, ih (acc ++ [c]) rest h]
      simp

/-- C7: a string (or `JSON.stringify`-rendered) default is embedded as a
single-quoted literal whose quotes are doubled; scanning the generated
literal from after its opening quote consumes exactly the escaped text,
decodes back to the original default, and stops at the closing quote, so
the default cannot act as control syntax; the text following the closing
quote (` UNIQUE` or the column separator) never begins with a quote. -/
theorem columnDef_default_escaped
    (fld : ModelField) (s : String)
    (hdef : fld.default = some (FieldDefault.str s) ∨
            fld.default = some (FieldDefault.jsonText s)) :
    columnDef fld =
      "\"" ++ fld.name ++ "\" " ++ sqlTypeFor fld.type
        ++ (if fld.required then " NOT NULL" else "")
        ++ (" DEFAULT '" ++ escapeSqlQuotes s ++ "'")
        ++ (if fld.unique then " UNIQUE" else "") ∧
    (∀ rest : List Char, rest.head? ≠ some '\'' →
      sqlLiteralScan [] ((escapeSqlQuotes s).data ++ '\'' :: rest) =
        some (s.data, rest)) ∧
    " UNIQUE".data.head? ≠ some '\'' ∧ ",".data.head? ≠ some '\'' := by
  refine ⟨?_, ?_, by decide, by decide⟩
  · rcases hdef with h | h <;> simp only [columnDef, h, defaultClause]
  · intro rest h
    have hs := sqlLiteralScan_escaped s.data [] rest h
    simpa [escapeSqlQuotes] using hs

/-- C7 witness: the field `note` with default `O'Brien` materializes as
`"note" TEXT DEFAULT 'O''Brien'`, and the scan of the embedded literal
followed by a column separator recovers `O'Brien` exactly. -/
theorem columnDef_default_escaped_witness :
    columnDef quoteField = "\"note\" TEXT DEFAULT 'O''Brien'" ∧
    sqlLiteralScan [] ((escapeSqlQuotes "O'Brien").data ++ '\'' :: ",".data) =
      some ("O'Brien".data, ",".data) := by
  have h := columnDef_default_escaped quoteField "O'Brien" (Or.inl rfl)
  refine ⟨?_, h.2.1 ",".data (by decide)⟩
  rw [h.1]
  decide

lemma contains_iff_mem (l : List String) (x : String) :
    l.contains x = true ↔ x ∈ l := by
  simp [List.contains, List.elem_iff]

lemma string_append_cancel_left (a b c : String) (h : a ++ b = a ++ c) :
    b = c := by
  have hd : (a ++ b).data = (a ++ c).data := by rw [h]
  rw [String.data_append, String.data_append] at hd
  exact String.ext (List.append_cancel_left hd)

lemma contains_eq_false_of_not_mem (l : List String) (x : String)
    (h : x ∉ l) : l.contains x = false := by
  cases hb : l.contains x
  · rfl
  · exact absurd ((contains_iff_mem _ _).mp hb) h

lemma registerMR_of_contains (s : RegistryState) (name : String)
    (h : s.registered.contains (jsToLower name) = true) :
    registerModelRoutes s name = s := by
  unfold registerModelRoutes
  rw [if_pos h]

lemma registerMR_of_not_contains (s : RegistryState) (name : String)
    (h : s.registered.contains (jsToLower name) = false) :
    registerModelRoutes s name =
      { registered := s.registered ++ [jsToLower name]
        mounts := s.mounts ++ [("/api/" ++ jsToLower name, name)] } := by
  unfold registerModelRoutes
  have hne : ¬(s.registered.contains (jsToLower name) = true) := by
    rw [h]
    simp
  rw [if_neg hne]

lemma registerModelRoutes_preserves_inv (s : RegistryState) (name : String)
    (hinv : RegistryInv s) : RegistryInv (registerModelRoutes s name) := by
  by_cases hc : s.registered.contains (jsToLower name) = true
  · rw [registerMR_of_contains s name hc]
    exact hinv
  · have hnm : jsToLower name ∉ s.registered := by
      intro hm
      exact hc ((contains_iff_mem _ _).mpr hm)
    have hc' : s.registered.contains (jsToLower name) = false :=
      contains_eq_false_of_not_mem _ _ hnm
    rw [registerMR_of_not_contains s name hc']
    refine ⟨?_, ?_⟩
    · simp [List.nodup_append, hinv.1, hnm]
    · intro n
      show (List.filter (fun p => p.1 == "/api/" ++ n)
          (s.mounts ++ [("/api/" ++ jsToLower name, name)])).length =
        if (s.registered ++ [jsToLower name]).contains n = true then 1
        else 0
      rw [List.filter_append, List.length_append, hinv.2 n]
      by_cases hn : n = jsToLower name
      · rw [hn, hc']
        have h1 : (s.registered ++ [jsToLower name]).contains
            (jsToLower name) = true :=
          (contains_iff_mem _ _).mpr (by simp)
        rw [h1]
        simp [List.filter_cons]
      · have hne : ("/api/" ++ jsToLower name : String) ≠ "/api/" ++ n :=
          fun hEq => hn (string_append_cancel_left "/api/" _ _ hEq).symm
        have hbeq : (("/api/" ++ jsToLower name : String) ==
            "/api/" ++ n) = false := by
          simp [hne]
        have h3 : (([("/api/" ++ jsToLower name, name)] :
            List (String × String)).filter
              (fun p => p.1 == "/api/" ++ n)).length = 0 := by
          simp [List.filter_cons, hbeq]
        have h2 : (s.registered ++ [jsToLower name]).contains n =
            s.registered.contains n := by
          by_cases hb : n ∈ s.registered
          · rw [(contains_iff_mem _ _).mpr
              (List.mem_append.mpr (Or.inl hb) :
                n ∈ s.registered ++ [jsToLower name]),
              (contains_iff_mem _ _).mpr hb]
          · have ha : n ∉ s.registered ++ [jsToLower name] := by
              intro hm
              rcases List.mem_append.mp hm with hm | hm
              · exact hb hm
              · exact hn (by simpa using hm)
            rw [contains_eq_false_of_not_mem _ _ ha,
              contains_eq_false_of_not_mem _ _ hb]
        rw [h2, h3, Nat.add_zero]

/-- C8: registration is idempotent: from any state satisfying the registry
invariant, registering a name twice equals registering it once, the
registered set then holds exactly one entry for the lowercased name,
exactly one handler is mounted at its path, and the invariant is
preserved. -/
theorem registerModelRoutes_idempotent
    (s : RegistryState) (name : String) (hinv : RegistryInv s) :
    registerModelRoutes (registerModelRoutes s name) name =
      registerModelRoutes s name ∧
    (getRegisteredRoutes (registerModelRoutes s name)).count
        (jsToLower name) = 1 ∧
    ((registerModelRoutes s name).mounts.filter
        (fun p => p.1 == "/api/" ++ jsToLower name)).length = 1 ∧
    RegistryInv (registerModelRoutes s name) := by
  have hafter : (registerModelRoutes s name).registered.contains
      (jsToLower name) = true := by
    by_cases hc : s.registered.contains (jsToLower name) = true
    · rw [registerMR_of_contains s name hc]
      exact hc
    · have hc' : s.registered.contains (jsToLower name) = false := by
        cases hb : s.registered.contains (jsToLower name)
        · rfl
        · exact absurd hb hc
      rw [registerMR_of_not_contains s name hc']
      exact (contains_iff_mem _ _).mpr (by simp)
  have hinv' := registerModelRoutes_preserves_inv s name hinv
  refine ⟨registerMR_of_contains _ name hafter, ?_, ?_, hinv'⟩
  · have hmem : jsToLower name ∈ (registerModelRoutes s name).registered :=
      (contains_iff_mem _ _).mp hafter
    have h1 := List.nodup_iff_count_le_one.mp hinv'.1 (jsToLower name)
    have h2 := List.count_pos_iff.mpr hmem
    unfold getRegisteredRoutes
    omega
  · rw [hinv'.2 (jsToLower name), hafter]
    simp

/-- C8 witness: registering `"Invoice"` twice on the empty registry equals
registering it once, and one `invoice` entry results. -/
theorem registerModelRoutes_idempotent_witness :
    registerModelRoutes (registerModelRoutes initialRegistryState "Invoice")
        "Invoice" = registerModelRoutes initialRegistryState "Invoice" ∧
    (getRegisteredRoutes
        (registerModelRoutes initialRegistryState "Invoice")).count
      "invoice" = 1 := by
  have hinv : RegistryInv initialRegistryState := by
    constructor
    · simp [initialRegistryState]
    · intro n
      simp [initialRegistryState, List.contains]
  have h := registerModelRoutes_idempotent initialRegistryState "Invoice" hinv
  refine ⟨h.1, ?_⟩
  have hlow : jsToLower "Invoice" = "invoice" := by decide
  rw [← hlow]
  exact h.2.1

set_option maxRecDepth 8000 in
/-- C9: Scenario D. Publishing `"Invoice"` with no `tableName` override
materializes the table as `invoices` (the full generated CREATE TABLE
statement names it), and mounts the handler at `/api/invoice`. -/
theorem invoice_default_naming :
    tableNameFor invoiceModel = "invoices" ∧
    createTableSQL invoiceModel =
      "CREATE TABLE IF NOT EXISTS \"invoices\" (\"id\" TEXT PRIMARY KEY DEFAULT gen_random_uuid()::text,\"createdAt\" TIMESTAMP DEFAULT NOW(),\"updatedAt\" TIMESTAMP DEFAULT NOW())" ∧
    (registerModelRoutes initialRegistryState "Invoice").mounts =
      [("/api/invoice", "Invoice")] ∧
    getRegisteredRoutes (registerModelRoutes initialRegistryState "Invoice") =
      ["invoice"] := by
  decide

/-- C10 (implicit): the registry is keyed by the lowercased model name:
for names equal up to case, a second registration after the first is a
no-op, `isRouteRegistered` answers identically for both spellings, and
`getRegisteredRoutes` only ever returns lowercased names (the property is
preserved by registration, from the empty initial state). -/
theorem registry_keyed_by_lowercase
    (s : RegistryState) (n1 n2 : String) (h : jsToLower n1 = jsToLower n2) :
    registerModelRoutes (registerModelRoutes s n1) n2 =
      registerModelRoutes s n1 ∧
    isRouteRegistered s n1 = isRouteRegistered s n2 ∧
    (∀ x ∈ getRegisteredRoutes initialRegistryState,
      ∃ n : String, x = jsToLower n) ∧
    ((∀ x ∈ getRegisteredRoutes s, ∃ n : String, x = jsToLower n) →
      ∀ x ∈ getRegisteredRoutes (registerModelRoutes s n1),
        ∃ n : String, x = jsToLower n) := by
  refine ⟨?_, ?_, ?_, ?_⟩
  · have hafter : (registerModelRoutes s n1).registered.contains
        (jsToLower n2) = true := by
      rw [← h]
      by_cases hc : s.registered.contains (jsToLower n1) = true
      · rw [registerMR_of_contains s n1 hc]
        exact hc
      · have hc' : s.registered.contains (jsToLower n1) = false := by
          cases hb : s.registered.contains (jsToLower n1)
          · rfl
          · exact absurd hb hc
        rw [registerMR_of_not_contains s n1 hc']
        exact (contains_iff_mem _ _).mpr (by simp)
    exact registerMR_of_contains _ n2 hafter
  · unfold isRouteRegistered
    rw [h]
  · intro x hx
    simp [getRegisteredRoutes, initialRegistryState] at hx
  · intro hall x hx
    by_cases hc : s.registered.contains (jsToLower n1) = true
    · rw [registerMR_of_contains s n1 hc] at hx
      exact hall x hx
    · have hc' : s.registered.contains (jsToLower n1) = false := by
        cases hb : s.registered.contains (jsToLower n1)
        · rfl
        · exact absurd hb hc
      rw [registerMR_of_not_contains s n1 hc'] at hx
      have hx' : x ∈ s.registered ++ [jsToLower n1] := hx
      rcases List.mem_append.mp hx' with hm | hm
      · exact hall x hm
      · exact ⟨n1, by simpa using hm⟩

/-- C10 witness: `"Invoice"` then `"INVOICE"` on the empty registry: the
second registration is a no-op and `isRouteRegistered` agrees on the two
spellings. -/
theorem registry_keyed_by_lowercase_witness :
    registerModelRoutes
        (registerModelRoutes initialRegistryState "Invoice") "INVOICE" =
      registerModelRoutes initialRegistryState "Invoice" ∧
    isRouteRegistered initialRegistryState "Invoice" =
      isRouteRegistered initialRegistryState "INVOICE" := by
  have h := registry_keyed_by_lowercase initialRegistryState "Invoice"
    "INVOICE" (by decide)
  exact ⟨h.1, h.2.1⟩

end AutoCrud
